import Mathlib

/-!
Shallow embedding of the market-state engine of `api.py` (classes `Level`,
`Order`, `OrderBook`, `OHLCV`, `History`), faithful to the source.

Python objects become Lean structures, in-place mutation becomes explicit
state passing, and every emitted signal is collected in a list returned
next to the new state.  Prices and volumes are carried as `Int` (the code
only adds, subtracts, compares and multiplies them).  Python's
`int(a / b)` truncates toward zero, which is `Int.tdiv` on integers.
A Python read of an unassigned local (a `NameError`) is modelled by
`Option`: `none` means the call raises.
-/

/-- Side of the book; the source uses the strings "bid" and "ask". -/
inductive Side where
  | bid
  | ask
deriving DecidableEq, Repr

/-- `Level` from api.py:1178-1189: one level in the orderbook.
`Level(price, volume)` initializes `own_volume` and both cache fields to 0. -/
structure Level where
  price : Int
  volume : Int
  own_volume : Int := 0
  cache_total_vol : Int := 0
  cache_total_vol_quote : Int := 0
deriving DecidableEq, Repr

instance : Inhabited Level := ⟨⟨0, 0, 0, 0, 0⟩⟩

/-- `Order` from api.py:1191-1199: one of the user's own orders. -/
structure Order where
  price : Int
  volume : Int
  typ : Side
  oid : String
  status : String
deriving DecidableEq, Repr

/-- The signals an `OrderBook` can emit during one slot call, in emission
order.  Payloads that matter to the spec (the affected order, the remove
reason, the volume difference) are carried along. -/
inductive Sig where
  | changed
  | fulldepth_processed
  | owns_changed
  | own_added (order : Order)
  | own_removed (order : Order) (reason : String)
  | own_opened (order : Order)
  | own_volume (order : Order) (voldiff : Int)
deriving DecidableEq, Repr

/-- Mutable state of `OrderBook` (api.py:1283-1303).  The field defaults are
the values set in `OrderBook.__init__`.  The string timestamp
`depth_updated` is display-only and not modelled. -/
structure OrderBook where
  bids : List Level := []
  asks : List Level := []
  owns : List Order := []
  bid : Int := 0
  ask : Int := 0
  total_bid : Int := 0
  total_ask : Int := 0
  ready_depth : Bool := false
  last_change_type : Option Side := none
  last_change_price : Int := 0
  last_change_volume : Int := 0
  valid_bid_cache : Int := -1
  valid_ask_cache : Int := -1
deriving DecidableEq, Repr

/-- A freshly constructed, empty orderbook. -/
def empty_book : OrderBook := {}

/-- Python `pat in s` on strings: substring containment.  Implemented by
direct scan over the character lists so that it evaluates in the kernel. -/
def chars_pref : List Char → List Char → Bool
  | [], _ => true
  | _ :: _, [] => false
  | a :: as, b :: bs => a == b && chars_pref as bs

/-- Scan helper for `str_in`: does `pat` occur in the list at any offset? -/
def chars_sub (pat : List Char) : List Char → Bool
  | [] => chars_pref pat []
  | c :: rest => chars_pref pat (c :: rest) || chars_sub pat rest

/-- Python `pat in s` for strings. -/
def str_in (pat s : String) : Bool := chars_sub pat.data s.data

/-- Python `lst.insert(i, x)`: insert before position `i`
(clamped to the end when `i` exceeds the length). -/
def insertAt (i : Nat) (x : α) (l : List α) : List α :=
  l.take i ++ x :: l.drop i

/-- Which side list an operation works on (`{"ask": self.asks,
"bid": self.bids}[typ]` in api.py:1603). -/
def side_list (book : OrderBook) : Side → List Level
  | .ask => book.asks
  | .bid => book.bids

/-- The comparison used for each side (api.py:1604): ascending `<` for
asks, descending `>` for bids. -/
def side_comp : Side → Int → Int → Bool
  | .ask => fun x y => decide (x < y)
  | .bid => fun x y => decide (x > y)

/-- The binary-search loop of `OrderBook._find_level` (api.py:1605-1620).
Returns the Python return value: on an exact match `(mid, some level)`,
otherwise `(high, none)` where `high` is the insertion point.  The `while
low < high` loop shrinks `high - low` on every iteration, so running it
with any fuel of at least `high - low` reproduces it exactly (the callers
pass the list length); the fuel-exhausted equation is unreachable then.
The list access is always in bounds in the source; `getD` supplies a
default that is never read. -/
def find_level_loop (comp : Int → Int → Bool) (lst : List Level) (price : Int) :
    Nat → Nat → Nat → Nat × Option Level
  | 0, _, high => (high, none)
  | fuel + 1, low, high =>
    if low < high then
      if comp (lst.getD ((low + high) / 2) default).price price then
        find_level_loop comp lst price fuel ((low + high) / 2 + 1) high
      else if comp price (lst.getD ((low + high) / 2) default).price then
        find_level_loop comp lst price fuel low ((low + high) / 2)
      else
        ((low + high) / 2, some (lst.getD ((low + high) / 2) default))
    else (high, none)

/-- `OrderBook._find_level` (api.py:1597-1620). -/
def find_level (book : OrderBook) (typ : Side) (price : Int) : Nat × Option Level :=
  find_level_loop (side_comp typ) (side_list book typ) price
    (side_list book typ).length 0 (side_list book typ).length

/-- The tail of `OrderBook._update_book` (api.py:1553-1568): store the new
side list, record the last-change descriptor, update the side total, the
best price and the cache watermark, and report `True` (book changed). -/
def update_book_apply (book : OrderBook) (typ : Side) (price voldiff : Int)
    (lst' : List Level) (index : Nat) : OrderBook × Bool :=
  match typ with
  | .ask =>
    let b := { book with
      asks := lst'
      last_change_type := some Side.ask
      last_change_price := price
      last_change_volume := voldiff
      total_ask := book.total_ask + voldiff }
    let b := match lst'.head? with
      | some l => { b with ask := l.price }
      | none => b
    ({ b with valid_ask_cache := min b.valid_ask_cache ((index : Int) - 1) }, true)
  | .bid =>
    let b := { book with
      bids := lst'
      last_change_type := some Side.bid
      last_change_price := price
      last_change_volume := voldiff
      total_bid := book.total_bid + voldiff * price }
    let b := match lst'.head? with
      | some l => { b with bid := l.price }
      | none => b
    ({ b with valid_bid_cache := min b.valid_bid_cache ((index : Int) - 1) }, true)

/-- `OrderBook._update_book` (api.py:1530-1568).  Returns the new book and
whether the book changed. -/
def update_book (book : OrderBook) (typ : Side) (price total_vol : Int) :
    OrderBook × Bool :=
  let fl := find_level book typ price
  let index := fl.1
  if total_vol = 0 then
    match fl.2 with
    | none => (book, false)
    | some level =>
      update_book_apply book typ price (-level.volume)
        ((side_list book typ).eraseIdx index) index
  else
    match fl.2 with
    | none =>
      update_book_apply book typ price total_vol
        (insertAt index ⟨price, total_vol, 0, 0, 0⟩ (side_list book typ)) index
    | some level =>
      let voldiff := total_vol - level.volume
      if voldiff = 0 then (book, false)
      else
        update_book_apply book typ price voldiff
          ((side_list book typ).set index { level with volume := total_vol }) index

/-- `OrderBook.slot_depth` (api.py:1323-1327). -/
def slot_depth (book : OrderBook) (typ : Side) (price total_vol : Int) :
    OrderBook × List Sig :=
  let r := update_book book typ price total_vol
  if r.2 then (r.1, [Sig.changed]) else (r.1, [])

/-- The `while` loop of `OrderBook._repair_crossed_asks` (api.py:1520-1528):
pop the head while it is priced below `ask`, updating the running
`total_ask` and setting the ask-cache watermark to -1 on every pop. -/
def repair_asks_loop (ask : Int) : List Level → Int → Int → List Level × Int × Int
  | [], total, cache => ([], total, cache)
  | lvl :: rest, total, cache =>
    if lvl.price < ask then repair_asks_loop ask rest (total + -lvl.volume) (-1)
    else (lvl :: rest, total, cache)

/-- The `while` loop of `OrderBook._repair_crossed_bids` (api.py:1509-1518). -/
def repair_bids_loop (bid : Int) : List Level → Int → Int → List Level × Int × Int
  | [], total, cache => ([], total, cache)
  | lvl :: rest, total, cache =>
    if lvl.price > bid then
      repair_bids_loop bid rest (total + -lvl.volume * lvl.price) (-1)
    else (lvl :: rest, total, cache)

/-- `OrderBook._repair_crossed_asks` (api.py:1520-1528). -/
def repair_crossed_asks (book : OrderBook) (ask : Int) : OrderBook :=
  let r := repair_asks_loop ask book.asks book.total_ask book.valid_ask_cache
  { book with asks := r.1, total_ask := r.2.1, valid_ask_cache := r.2.2 }

/-- `OrderBook._repair_crossed_bids` (api.py:1509-1518). -/
def repair_crossed_bids (book : OrderBook) (bid : Int) : OrderBook :=
  let r := repair_bids_loop bid book.bids book.total_bid book.valid_bid_cache
  { book with bids := r.1, total_bid := r.2.1, valid_bid_cache := r.2.2 }

/-- `OrderBook.slot_ticker` (api.py:1311-1321). -/
def slot_ticker (book : OrderBook) (bid ask : Int) : OrderBook × List Sig :=
  let b := { book with
    bid := bid
    ask := ask
    last_change_type := none
    last_change_price := 0
    last_change_volume := 0 }
  let b := repair_crossed_asks b ask
  let b := repair_crossed_bids b bid
  (b, [Sig.changed])

/-- `OrderBook.slot_trade` (api.py:1329-1377).  The trade date is unused by
the book.  `signal_changed` is emitted unconditionally at the end. -/
def slot_trade (book : OrderBook) (price volume : Int) (typ : Side) (own : Bool) :
    OrderBook × List Sig :=
  if own then (book, [Sig.changed])
  else
    match typ with
    | .bid =>
      let b := repair_crossed_asks book price
      let b := match b.asks with
        | [] => b
        | lvl :: rest =>
          if lvl.price = price then
            let newvol := lvl.volume - volume
            let voldiff := if newvol ≤ 0 then -volume - newvol else -volume
            let asks' := if newvol ≤ 0 then rest else { lvl with volume := newvol } :: rest
            { b with
              asks := asks'
              last_change_type := some Side.ask
              last_change_price := price
              last_change_volume := voldiff
              total_ask := b.total_ask + voldiff
              valid_ask_cache := -1 }
          else b
      let b := match b.asks with
        | lvl :: _ => { b with ask := lvl.price }
        | [] => b
      (b, [Sig.changed])
    | .ask =>
      let b := repair_crossed_bids book price
      let b := match b.bids with
        | [] => b
        | lvl :: rest =>
          if lvl.price = price then
            let newvol := lvl.volume - volume
            let voldiff := if newvol ≤ 0 then -volume - newvol else -volume
            let bids' := if newvol ≤ 0 then rest else { lvl with volume := newvol } :: rest
            { b with
              bids := bids'
              last_change_type := some Side.bid
              last_change_price := price
              last_change_volume := voldiff
              total_bid := b.total_bid + voldiff * price
              valid_bid_cache := -1 }
          else b
      let b := match b.bids with
        | lvl :: _ => { b with bid := lvl.price }
        | [] => b
      (b, [Sig.changed])

/-- `OrderBook.get_own_volume_at` (api.py:1641-1650): sum of the volume of
own orders at a price, optionally filtered by side. -/
def get_own_volume_at (book : OrderBook) (price : Int) (typ : Option Side) : Int :=
  book.owns.foldl
    (fun acc o =>
      if o.price = price ∧ (typ = none ∨ typ = some o.typ) then acc + o.volume
      else acc)
    0

/-- `OrderBook.have_own_oid` (api.py:1652-1657). -/
def have_own_oid (book : OrderBook) (oid : String) : Bool :=
  book.owns.any (fun o => o.oid == oid)

/-- `OrderBook._find_level_or_insert_new` (api.py:1622-1639): find the level
at `price`, or insert a fresh `Level(price, 0)` at the insertion point and
invalidate the side's cache watermark. -/
def find_level_or_insert_new (book : OrderBook) (typ : Side) (price : Int) :
    OrderBook × Nat × Level :=
  let fl := find_level book typ price
  match fl.2 with
  | some level => (book, fl.1, level)
  | none =>
    let level : Level := ⟨price, 0, 0, 0, 0⟩
    match typ with
    | .ask =>
      ({ book with
          asks := insertAt fl.1 level book.asks
          valid_ask_cache := min book.valid_ask_cache ((fl.1 : Int) - 1) },
        fl.1, level)
    | .bid =>
      ({ book with
          bids := insertAt fl.1 level book.bids
          valid_bid_cache := min book.valid_bid_cache ((fl.1 : Int) - 1) },
        fl.1, level)

/-- `OrderBook._update_level_own_volume` (api.py:1578-1595). -/
def update_level_own_volume (book : OrderBook) (typ : Side) (price own_volume : Int) :
    OrderBook :=
  if price = 0 then book
  else
    let r := find_level_or_insert_new book typ price
    let book1 := r.1
    let index := r.2.1
    let level := r.2.2
    if level.volume = 0 ∧ own_volume = 0 then
      match typ with
      | .ask => { book1 with asks := book1.asks.eraseIdx index }
      | .bid => { book1 with bids := book1.bids.eraseIdx index }
    else
      match typ with
      | .ask => { book1 with asks := book1.asks.set index { level with own_volume := own_volume } }
      | .bid => { book1 with bids := book1.bids.set index { level with own_volume := own_volume } }

/-- `OrderBook._add_own` (api.py:1761-1772). -/
def add_own_internal (book : OrderBook) (order : Order) : OrderBook :=
  if have_own_oid book order.oid then book
  else
    let b := { book with owns := book.owns ++ [order] }
    update_level_own_volume b order.typ order.price
      (get_own_volume_at b order.price (some order.typ))

/-- `OrderBook.add_own` (api.py:1749-1759): add the order unless its oid is
already known, emitting `signal_own_added`, `signal_changed` and
`signal_owns_changed` when it is added. -/
def add_own (book : OrderBook) (order : Order) : OrderBook × List Sig :=
  if have_own_oid book order.oid then (book, [])
  else
    (add_own_internal book order,
     [Sig.own_added order, Sig.changed, Sig.owns_changed])

/-- First index (and the order there) whose oid matches, mirroring the
`for i in range(len(self.owns))` scan in api.py:1393-1394 and the
`for order in self.owns` scan in api.py:1427-1428. -/
def find_own : List Order → String → Option (Nat × Order)
  | [], _ => none
  | o :: rest, oid =>
    if o.oid = oid then some (0, o)
    else
      match find_own rest oid with
      | some r => some (r.1 + 1, r.2)
      | none => none

/-- `OrderBook.slot_user_order` (api.py:1379-1467).  `reason` is the value
of `self.api.msg["user_order"]["reason"]` read in api.py:1460 when a
removal is signalled. -/
def slot_user_order (book : OrderBook) (price volume : Int) (typ : Side)
    (oid status reason : String) : OrderBook × List Sig :=
  if str_in "executing" status then (book, [])
  else if str_in "post-pending" status then (book, [])
  else if str_in "removed" status then
    match find_own book.owns oid with
    | none =>
      -- loop finds nothing: `removed` stays False, the trailing signals fire
      (book, [Sig.changed, Sig.owns_changed])
    | some r =>
      let i := r.1
      let order := r.2
      if order.price = 0 ∧ str_in "passive" status then
        -- market-order "completed_passive" workaround: ignore entirely
        (book, [])
      else
        let b := { book with owns := book.owns.eraseIdx i }
        let b := update_level_own_volume b order.typ order.price
          (get_own_volume_at b order.price (some order.typ))
        (b, [Sig.own_removed order reason, Sig.changed, Sig.owns_changed])
  else
    match find_own book.owns oid with
    | none =>
      -- unknown oid: treat like a reply to "order/add" and return
      add_own book ⟨price, volume, typ, oid, status⟩
    | some r =>
      let i := r.1
      let order := r.2
      let voldiff := volume - order.volume
      let opened := order.status ≠ "open" ∧ status = "open"
      let order' := { order with volume := volume, status := status }
      let b := { book with owns := book.owns.set i order' }
      let b := update_level_own_volume b typ price
        (get_own_volume_at b price (some typ))
      (b,
        (if opened then [Sig.own_opened order'] else []) ++
        (if voldiff ≠ 0 then [Sig.own_volume order' voldiff] else []) ++
        [Sig.changed, Sig.owns_changed])

/-- One entry of the fulldepth snapshot payload (api.py:1481-1489 reads
`order["price"]` and `order["amount"]`). -/
structure DepthEntry where
  price : Int
  amount : Int
deriving DecidableEq, Repr

/-- The fulldepth payload: an optional error value and the two arrays
under `depth["data"]`. -/
structure FullDepth where
  error : Option String := none
  asks : List DepthEntry := []
  bids : List DepthEntry := []
deriving DecidableEq, Repr

/-- Python truthiness of `"error" in depth and depth["error"]`: the key is
present and its value is a non-empty string. -/
def fulldepth_has_error (d : FullDepth) : Bool :=
  match d.error with
  | none => false
  | some e => e ≠ ""

/-- `OrderBook.slot_fulldepth` (api.py:1469-1507).  Note the source clears
the book before checking the error flag. -/
def slot_fulldepth (book : OrderBook) (depth : FullDepth) : OrderBook × List Sig :=
  let b := { book with bids := [], asks := [], total_ask := 0, total_bid := 0 }
  if fulldepth_has_error depth then (b, [])
  else
    let b := depth.asks.foldl
      (fun b e =>
        { b with
          total_ask := b.total_ask + e.amount
          asks := b.asks ++ [⟨e.price, e.amount, 0, 0, 0⟩] })
      b
    let b := depth.bids.foldl
      (fun b e =>
        { b with
          total_bid := b.total_bid + e.amount * e.price
          bids := ⟨e.price, e.amount, 0, 0, 0⟩ :: b.bids })
      b
    let b := b.owns.foldl
      (fun b o =>
        update_level_own_volume b o.typ o.price
          (get_own_volume_at b o.price (some o.typ)))
      b
    let b := match b.bids.head? with
      | some l => { b with bid := l.price }
      | none => b
    let b := match b.asks.head? with
      | some l => { b with ask := l.price }
      | none => b
    let b := { b with valid_ask_cache := -1, valid_bid_cache := -1, ready_depth := true }
    (b, [Sig.fulldepth_processed, Sig.changed])

/-- `OHLCV` from api.py:481-500. -/
structure OHLCV where
  tim : Int
  opn : Int
  hig : Int
  low : Int
  cls : Int
  vol : Int
deriving DecidableEq, Repr

/-- `OHLCV.update` (api.py:493-500). -/
def OHLCV.update (c : OHLCV) (price volume : Int) : OHLCV :=
  { c with
    hig := if price > c.hig then price else c.hig
    low := if price < c.low then price else c.low
    cls := price
    vol := c.vol + volume }

/-- One trade record of the fullhistory payload (api.py:568-570 reads
`trade["date"]`, `trade["price"]`, `trade["amount"]`). -/
structure HistTrade where
  date : Int
  price : Int
  amount : Int
deriving DecidableEq, Repr

/-- `History` state (api.py:503-516). -/
structure History where
  candles : List OHLCV := []
  timeframe : Int
  ready_history : Bool := false
deriving DecidableEq, Repr

/-- Signals emitted by `History`. -/
inductive HistSig where
  | fullhistory_processed
  | changed
deriving DecidableEq, Repr

/-- `int(date / timeframe) * timeframe` (api.py:556-558): Python truncates
the quotient toward zero. -/
def get_time_round (timeframe date : Int) : Int :=
  Int.tdiv date timeframe * timeframe

/-- The candle-trimming loop of `slot_fullhistory` (api.py:562-563):
pop leading candles not older than `date_begin`. -/
def drop_recent (date_begin : Int) : List OHLCV → List OHLCV
  | [] => []
  | c :: rest =>
    if c.tim ≥ date_begin then drop_recent date_begin rest else c :: rest

/-- The trade walk of `slot_fullhistory` (api.py:565-577): one candle per
bucket, prepending each completed candle; returns the accumulated candle
list and the current (incomplete) candle. -/
def fullhistory_loop (timeframe : Int) :
    List HistTrade → List OHLCV → OHLCV → List OHLCV × OHLCV
  | [], candles, cur => (candles, cur)
  | t :: rest, candles, cur =>
    let time_round := get_time_round timeframe t.date
    let step :=
      if time_round > cur.tim then
        ((if cur.tim > 0 then cur :: candles else candles),
         OHLCV.mk time_round t.price t.price t.price t.price t.amount)
      else (candles, cur)
    fullhistory_loop timeframe rest step.1 (step.2.update t.price t.amount)

/-- `History.slot_fullhistory` (api.py:548-585). -/
def slot_fullhistory (h : History) (history : List HistTrade) :
    History × List HistSig :=
  match history with
  | [] => (h, [])
  | t0 :: _ =>
    let date_begin := get_time_round h.timeframe t0.date
    let candles := drop_recent date_begin h.candles
    let r := fullhistory_loop h.timeframe history candles ⟨0, 0, 0, 0, 0, 0⟩
    ({ h with candles := r.2 :: r.1, ready_history := true },
     [HistSig.fullhistory_processed, HistSig.changed])

/-- `History.slot_trade` (api.py:526-542). -/
def history_slot_trade (h : History) (date price volume : Int) (own : Bool) :
    History × List HistSig :=
  if own then (h, [])
  else
    let time_round := get_time_round h.timeframe date
    match h.candles with
    | c :: rest =>
      if c.tim = time_round then
        ({ h with candles := c.update price volume :: rest }, [HistSig.changed])
      else
        ({ h with candles := OHLCV.mk time_round price price price price volume :: c :: rest },
         [HistSig.changed])
    | [] =>
      ({ h with candles := [OHLCV.mk time_round price price price price volume] },
       [HistSig.changed])

/-- Python `lst[i]` with Python's negative-index semantics (api.py:1695 can
be reached with index -1 when both the query and the watermark sit at -1). -/
def pyGet (lst : List Level) (i : Int) : Level :=
  if 0 ≤ i then lst.getD i.toNat default
  else lst.getD (lst.length - (-i).toNat) default

/-- The binary-search loop of `OrderBook.get_total_up_to` (api.py:1675-1685).
`mid` and `midval` model the Python locals of the same names, `none` while
still unassigned.  The loop `break`s out on an exact match.  As with
`find_level_loop` the fuel only needs to be at least `high - low`. -/
def gtut_loop (comp : Int → Int → Bool) (lst : List Level) (price : Int) :
    Nat → Nat → Nat → Option Nat → Option Int → Option Nat × Option Int
  | 0, _, _, mid, midval => (mid, midval)
  | fuel + 1, low, high, mid, midval =>
    if low < high then
      if comp (lst.getD ((low + high) / 2) default).price price then
        gtut_loop comp lst price fuel ((low + high) / 2 + 1) high
          (some ((low + high) / 2)) (some (lst.getD ((low + high) / 2) default).price)
      else if comp price (lst.getD ((low + high) / 2) default).price then
        gtut_loop comp lst price fuel low ((low + high) / 2)
          (some ((low + high) / 2)) (some (lst.getD ((low + high) / 2) default).price)
      else
        (some ((low + high) / 2), some (lst.getD ((low + high) / 2) default).price)
    else (mid, midval)

/-- The cache-filling loop of `get_total_up_to` (api.py:1709-1714):
`for i in range(known_level, needed_level)` reading `lst[i + 1]`. -/
def gtut_walk : Nat → Nat → List Level → Int → Int → List Level × Int × Int
  | 0, _, lst, total, total_quote => (lst, total, total_quote)
  | n + 1, idx, lst, total, total_quote =>
    let that := lst.getD idx default
    let total' := total + that.volume
    let total_quote' := total_quote + that.volume * that.price
    let lst' := lst.set idx
      { that with cache_total_vol := total', cache_total_vol_quote := total_quote' }
    gtut_walk n (idx + 1) lst' total' total_quote'

/-- `OrderBook.get_total_up_to` (api.py:1659-1721).  `none` models the
`NameError` raised when the loop body never ran and `midval` is read
unassigned (api.py:1686); otherwise the totals and the updated book are
returned. -/
def get_total_up_to (book : OrderBook) (price : Int) (is_ask : Bool) :
    Option ((Int × Int) × OrderBook) :=
  let lst := if is_ask then book.asks else book.bids
  let known_level : Int := if is_ask then book.valid_ask_cache else book.valid_bid_cache
  let comp := side_comp (if is_ask then Side.ask else Side.bid)
  match gtut_loop comp lst price lst.length 0 lst.length none none with
  | (_, none) => none
  | (none, some _) => none
  | (some mid, some midval) =>
    let needed_level : Int := if comp price midval then (mid : Int) - 1 else (mid : Int)
    if needed_level ≤ known_level then
      let lvl := pyGet lst needed_level
      some ((lvl.cache_total_vol, lvl.cache_total_vol_quote), book)
    else
      let start :=
        if known_level = -1 then ((0 : Int), (0 : Int))
        else
          let l := pyGet lst known_level
          (l.cache_total_vol, l.cache_total_vol_quote)
      let steps := (needed_level - known_level).toNat
      let w := gtut_walk steps (known_level + 1).toNat lst start.1 start.2
      let book' :=
        if is_ask then { book with asks := w.1, valid_ask_cache := needed_level }
        else { book with bids := w.1, valid_bid_cache := needed_level }
      some ((w.2.1, w.2.2), book')

/-- The public book events quantified over by the invariant claims. -/
inductive BookEvent where
  | depth (typ : Side) (price total_vol : Int)
  | trade (price volume : Int) (typ : Side) (own : Bool)
deriving DecidableEq, Repr

/-- Apply one event through the corresponding slot, keeping the state. -/
def apply_event (book : OrderBook) : BookEvent → OrderBook
  | .depth typ price total_vol => (slot_depth book typ price total_vol).1
  | .trade price volume typ own => (slot_trade book price volume typ own).1

/-- Apply a finite sequence of events in order. -/
def apply_events (book : OrderBook) (evs : List BookEvent) : OrderBook :=
  evs.foldl apply_event book

/-- Strictly ascending prices (the asks invariant). -/
def asksSorted (l : List Level) : Prop :=
  l.Pairwise (fun a b => a.price < b.price)

/-- Strictly descending prices (the bids invariant). -/
def bidsSorted (l : List Level) : Prop :=
  l.Pairwise (fun a b => b.price < a.price)

instance : DecidablePred asksSorted := fun l =>
  List.instDecidablePairwise l

instance : DecidablePred bidsSorted := fun l =>
  List.instDecidablePairwise l

/-! ### Helper lemmas: list order bookkeeping -/

/-- A member of `insertAt i x l` is `x` or a member of `l`. -/
theorem mem_insertAt {x b : α} {l : List α} {i : Nat} (h : b ∈ insertAt i x l) :
    b = x ∨ b ∈ l := by
  unfold insertAt at h
  rcases List.mem_append.1 h with h1 | h2
  · exact Or.inr (List.take_subset _ _ h1)
  · rcases List.mem_cons.1 h2 with h3 | h4
    · exact Or.inl h3
    · exact Or.inr (List.drop_subset _ _ h4)

/-- Inserting `x` at `i` keeps a pairwise relation when everything before
the insertion point relates to `x` and `x` relates to everything from the
insertion point on. -/
theorem pairwise_insertAt {R : α → α → Prop} :
    ∀ (l : List α) (i : Nat) (x : α),
      l.Pairwise R →
      (∀ j (hj : j < l.length), j < i → R l[j] x) →
      (∀ j (hj : j < l.length), i ≤ j → R x l[j]) →
      (insertAt i x l).Pairwise R
  | [], i, x, _, _, _ => by simp [insertAt]
  | a :: t, 0, x, hl, _, h2 => by
    have : insertAt 0 x (a :: t) = x :: a :: t := by simp [insertAt]
    rw [this, List.pairwise_cons]
    refine ⟨fun b hb => ?_, hl⟩
    obtain ⟨⟨j, hj⟩, rfl⟩ := List.mem_iff_get.1 hb
    simpa using h2 j hj (Nat.zero_le _)
  | a :: t, i + 1, x, hl, h1, h2 => by
    have : insertAt (i + 1) x (a :: t) = a :: insertAt i x t := by
      simp [insertAt]
    rw [this, List.pairwise_cons]
    rw [List.pairwise_cons] at hl
    constructor
    · intro b hb
      rcases mem_insertAt hb with rfl | hbt
      · simpa using h1 0 (by simp) (Nat.succ_pos _)
      · exact hl.1 b hbt
    · refine pairwise_insertAt t i x hl.2 (fun j hj hji => ?_) (fun j hj hij => ?_)
      · simpa using h1 (j + 1) (by simpa using Nat.succ_lt_succ hj) (Nat.succ_lt_succ hji)
      · simpa using h2 (j + 1) (by simpa using Nat.succ_lt_succ hj) (Nat.succ_le_succ hij)

/-- Removing an index keeps a pairwise relation. -/
theorem pairwise_eraseIdx {R : α → α → Prop} {l : List α} {i : Nat}
    (hl : l.Pairwise R) : (l.eraseIdx i).Pairwise R :=
  List.Pairwise.sublist (List.eraseIdx_sublist l i) hl

/-- Replacing the element at `i` by one with the same price keeps a
pairwise price relation. -/
theorem pairwise_set_price {P : Int → Int → Prop} :
    ∀ (l : List Level) (i : Nat) (x : Level) (hi : i < l.length),
      l.Pairwise (fun a b => P a.price b.price) →
      x.price = l[i].price →
      (l.set i x).Pairwise (fun a b => P a.price b.price)
  | [], i, x, hi, _, _ => by simp at hi
  | a :: t, 0, x, _, hl, hx => by
    rw [List.set_cons_zero]
    rw [List.pairwise_cons] at hl ⊢
    have hxa : x.price = a.price := by simpa using hx
    exact ⟨fun b hb => hxa ▸ hl.1 b hb, hl.2⟩
  | a :: t, i + 1, x, hi, hl, hx => by
    rw [List.set_cons_succ]
    rw [List.pairwise_cons] at hl ⊢
    have hit : i < t.length := by simpa using hi
    refine ⟨fun b hb => ?_, pairwise_set_price t i x hit hl.2 (by simpa using hx)⟩
    rcases List.mem_or_eq_of_mem_set hb with hbt | rfl
    · exact hl.1 b hbt
    · have : b.price = t[i].price := by simpa using hx
      exact this ▸ hl.1 t[i] (List.getElem_mem hit)

/-! ### Binary search characterization and the sortedness invariant (C3) -/

/-- Characterization of the `_find_level` binary search on a side list that
is strictly sorted by `comp`: an exact-match return points at a level
priced `comp`-equal to `price`; a not-found return is the unique insertion
point, with everything before it `comp`-below `price` and everything from
it on `comp`-above. -/
theorem find_level_loop_spec (comp : Int → Int → Bool)
    (hct : ∀ a b c : Int, comp a b = true → comp b c = true → comp a c = true)
    (lst : List Level) (price : Int)
    (hs : lst.Pairwise (fun a b => comp a.price b.price = true)) :
    ∀ fuel low high, high - low ≤ fuel → high ≤ lst.length →
      (∀ j (hj : j < lst.length), j < low → comp (lst[j]).price price = true) →
      (∀ j (hj : j < lst.length), high ≤ j → comp price (lst[j]).price = true) →
      (match find_level_loop comp lst price fuel low high with
       | (i, some lvl) => ∃ hi : i < lst.length, lst[i] = lvl ∧
            comp lvl.price price = false ∧ comp price lvl.price = false
       | (i, none) => i ≤ lst.length ∧
            (∀ j (hj : j < lst.length), j < i → comp (lst[j]).price price = true) ∧
            (∀ j (hj : j < lst.length), i ≤ j → comp price (lst[j]).price = true)) := by
  have hpair : ∀ (i j : Nat) (hi : i < lst.length) (hj : j < lst.length), i < j →
      comp (lst[i]).price (lst[j]).price = true := by
    intro i j hi hj hij
    have := List.pairwise_iff_get.1 hs ⟨i, hi⟩ ⟨j, hj⟩ hij
    simpa using this
  intro fuel
  induction fuel with
  | zero =>
    intro low high hf hh hlow hhigh
    simp only [find_level_loop]
    exact ⟨hh, fun j hj hji => hlow j hj (by omega), hhigh⟩
  | succ n ih =>
    intro low high hf hh hlow hhigh
    simp only [find_level_loop]
    by_cases hlh : low < high
    · rw [if_pos hlh]
      have hm1 : low ≤ (low + high) / 2 := by omega
      have hm2 : (low + high) / 2 < high := by omega
      have hmlen : (low + high) / 2 < lst.length := by omega
      rw [List.getD_eq_getElem lst default hmlen]
      by_cases hc1 : comp (lst[(low + high) / 2]).price price = true
      · simp only [hc1, if_true]
        refine ih ((low + high) / 2 + 1) high (by omega) hh ?_ hhigh
        intro j hj hji
        rcases Nat.lt_or_ge j ((low + high) / 2) with hlt | hge
        · exact hct _ _ _ (hpair j ((low + high) / 2) hj hmlen hlt) hc1
        · have : j = (low + high) / 2 := by omega
          subst this
          exact hc1
      · rw [Bool.not_eq_true] at hc1
        simp only [hc1, if_false]
        by_cases hc2 : comp price (lst[(low + high) / 2]).price = true
        · simp only [hc2, if_true]
          refine ih low ((low + high) / 2) (by omega) (by omega) hlow ?_
          intro j hj hji
          rcases Nat.lt_or_ge ((low + high) / 2) j with hlt | hge
          · exact hct _ _ _ hc2 (hpair ((low + high) / 2) j hmlen hj hlt)
          · have : j = (low + high) / 2 := by omega
            subst this
            exact hc2
        · rw [Bool.not_eq_true] at hc2
          simp only [hc2, if_false]
          exact ⟨hmlen, rfl, hc1, hc2⟩
    · rw [if_neg hlh]
      exact ⟨hh, fun j hj hji => hlow j hj (by omega), hhigh⟩

/-- `_find_level` on a sorted ask side, exact-match case: the returned
index holds a level priced exactly `price`. -/
theorem find_level_ask_found {book : OrderBook} {price : Int} {i : Nat} {lvl : Level}
    (hs : asksSorted book.asks) (h : find_level book Side.ask price = (i, some lvl)) :
    ∃ hi : i < book.asks.length, book.asks[i] = lvl ∧ lvl.price = price := by
  have hspec := find_level_loop_spec (side_comp Side.ask)
    (by intro a b c h1 h2; simp only [side_comp, decide_eq_true_eq] at *; omega)
    book.asks price
    (hs.imp (by intro a b hab; simp only [side_comp, decide_eq_true_eq]; exact hab))
    book.asks.length 0 book.asks.length (by omega) (le_refl _)
    (by intro j hj hji; omega)
    (by intro j hj hji; omega)
  simp only [find_level, side_list] at h
  rw [h] at hspec
  obtain ⟨hi, heq, hf1, hf2⟩ := hspec
  refine ⟨hi, heq, ?_⟩
  simp only [side_comp, decide_eq_false_iff_not, not_lt] at hf1 hf2
  omega

/-- `_find_level` on a sorted ask side, not-found case: the returned index
is the insertion point for `price`. -/
theorem find_level_ask_not_found {book : OrderBook} {price : Int} {i : Nat}
    (hs : asksSorted book.asks) (h : find_level book Side.ask price = (i, none)) :
    i ≤ book.asks.length ∧
    (∀ j (hj : j < book.asks.length), j < i → book.asks[j].price < price) ∧
    (∀ j (hj : j < book.asks.length), i ≤ j → price < book.asks[j].price) := by
  have hspec := find_level_loop_spec (side_comp Side.ask)
    (by intro a b c h1 h2; simp only [side_comp, decide_eq_true_eq] at *; omega)
    book.asks price
    (hs.imp (by intro a b hab; simp only [side_comp, decide_eq_true_eq]; exact hab))
    book.asks.length 0 book.asks.length (by omega) (le_refl _)
    (by intro j hj hji; omega)
    (by intro j hj hji; omega)
  simp only [find_level, side_list] at h
  rw [h] at hspec
  obtain ⟨hlen, h1, h2⟩ := hspec
  refine ⟨hlen, fun j hj hji => ?_, fun j hj hij => ?_⟩
  · have := h1 j hj hji
    simpa [side_comp] using this
  · have := h2 j hj hij
    simpa [side_comp] using this

/-- `_find_level` on a sorted bid side, exact-match case. -/
theorem find_level_bid_found {book : OrderBook} {price : Int} {i : Nat} {lvl : Level}
    (hs : bidsSorted book.bids) (h : find_level book Side.bid price = (i, some lvl)) :
    ∃ hi : i < book.bids.length, book.bids[i] = lvl ∧ lvl.price = price := by
  have hspec := find_level_loop_spec (side_comp Side.bid)
    (by intro a b c h1 h2; simp only [side_comp, decide_eq_true_eq] at *; omega)
    book.bids price
    (hs.imp (by intro a b hab; simp only [side_comp, decide_eq_true_eq]; exact hab))
    book.bids.length 0 book.bids.length (by omega) (le_refl _)
    (by intro j hj hji; omega)
    (by intro j hj hji; omega)
  simp only [find_level, side_list] at h
  rw [h] at hspec
  obtain ⟨hi, heq, hf1, hf2⟩ := hspec
  refine ⟨hi, heq, ?_⟩
  simp only [side_comp, decide_eq_false_iff_not, not_lt, gt_iff_lt] at hf1 hf2
  omega

/-- `_find_level` on a sorted bid side, not-found case. -/
theorem find_level_bid_not_found {book : OrderBook} {price : Int} {i : Nat}
    (hs : bidsSorted book.bids) (h : find_level book Side.bid price = (i, none)) :
    i ≤ book.bids.length ∧
    (∀ j (hj : j < book.bids.length), j < i → price < book.bids[j].price) ∧
    (∀ j (hj : j < book.bids.length), i ≤ j → book.bids[j].price < price) := by
  have hspec := find_level_loop_spec (side_comp Side.bid)
    (by intro a b c h1 h2; simp only [side_comp, decide_eq_true_eq] at *; omega)
    book.bids price
    (hs.imp (by intro a b hab; simp only [side_comp, decide_eq_true_eq]; exact hab))
    book.bids.length 0 book.bids.length (by omega) (le_refl _)
    (by intro j hj hji; omega)
    (by intro j hj hji; omega)
  simp only [find_level, side_list] at h
  rw [h] at hspec
  obtain ⟨hlen, h1, h2⟩ := hspec
  refine ⟨hlen, fun j hj hji => ?_, fun j hj hij => ?_⟩
  · have := h1 j hj hji
    simpa [side_comp] using this
  · have := h2 j hj hij
    simpa [side_comp] using this

/-- The common tail of `_update_book` stores the given list on the given
side and leaves the other side and the owns list alone. -/
theorem update_book_apply_proj (book : OrderBook) (typ : Side) (price voldiff : Int)
    (lst' : List Level) (index : Nat) :
    (match typ with
     | Side.ask =>
       (update_book_apply book typ price voldiff lst' index).1.asks = lst' ∧
       (update_book_apply book typ price voldiff lst' index).1.bids = book.bids
     | Side.bid =>
       (update_book_apply book typ price voldiff lst' index).1.bids = lst' ∧
       (update_book_apply book typ price voldiff lst' index).1.asks = book.asks) := by
  cases typ <;>
    · unfold update_book_apply
      cases hh : lst'.head? <;> simp

/-- `_update_book` keeps both sides strictly sorted. -/
theorem update_book_sorted (book : OrderBook) (typ : Side) (price total_vol : Int)
    (ha : asksSorted book.asks) (hb : bidsSorted book.bids) :
    asksSorted (update_book book typ price total_vol).1.asks ∧
    bidsSorted (update_book book typ price total_vol).1.bids := by
  cases typ
  case ask =>
    rcases hfl : find_level book Side.ask price with ⟨i, o⟩
    have hproj := fun lst' index =>
      update_book_apply_proj book Side.ask price (total_vol - (o.getD default).volume) lst' index
    unfold update_book
    rw [hfl]
    rcases o with _ | lvl
    · by_cases h0 : total_vol = 0
      · simp only [h0, if_true]
        exact ⟨ha, hb⟩
      · simp only [h0, if_false]
        obtain ⟨hlen, h1, h2⟩ := find_level_ask_not_found ha hfl
        have hp := update_book_apply_proj book Side.ask price total_vol
          (insertAt i ⟨price, total_vol, 0, 0, 0⟩ (side_list book Side.ask)) i
        simp only at hp
        rw [hp.1, hp.2]
        refine ⟨?_, hb⟩
        unfold asksSorted at ha ⊢
        simp only [side_list]
        exact pairwise_insertAt book.asks i _ ha
          (fun j hj hji => h1 j hj hji) (fun j hj hij => h2 j hj hij)
    · obtain ⟨hi, heq, hpr⟩ := find_level_ask_found ha hfl
      by_cases h0 : total_vol = 0
      · simp only [h0, if_true]
        have hp := update_book_apply_proj book Side.ask price (-lvl.volume)
          ((side_list book Side.ask).eraseIdx i) i
        simp only at hp
        rw [hp.1, hp.2]
        refine ⟨?_, hb⟩
        unfold asksSorted at ha ⊢
        simp only [side_list]
        exact pairwise_eraseIdx ha
      · simp only [h0, if_false]
        by_cases hv : total_vol - lvl.volume = 0
        · simp only [hv, if_true]
          exact ⟨ha, hb⟩
        · simp only [hv, if_false]
          have hp := update_book_apply_proj book Side.ask price (total_vol - lvl.volume)
            ((side_list book Side.ask).set i { lvl with volume := total_vol }) i
          simp only at hp
          rw [hp.1, hp.2]
          refine ⟨?_, hb⟩
          unfold asksSorted at ha ⊢
          simp only [side_list]
          exact pairwise_set_price book.asks i _ hi ha (by simp [heq])
  case bid =>
    rcases hfl : find_level book Side.bid price with ⟨i, o⟩
    unfold update_book
    rw [hfl]
    rcases o with _ | lvl
    · by_cases h0 : total_vol = 0
      · simp only [h0, if_true]
        exact ⟨ha, hb⟩
      · simp only [h0, if_false]
        obtain ⟨hlen, h1, h2⟩ := find_level_bid_not_found hb hfl
        have hp := update_book_apply_proj book Side.bid price total_vol
          (insertAt i ⟨price, total_vol, 0, 0, 0⟩ (side_list book Side.bid)) i
        simp only at hp
        rw [hp.1, hp.2]
        refine ⟨ha, ?_⟩
        unfold bidsSorted at hb ⊢
        simp only [side_list]
        exact pairwise_insertAt book.bids i _ hb
          (fun j hj hji => h1 j hj hji) (fun j hj hij => h2 j hj hij)
    · obtain ⟨hi, heq, hpr⟩ := find_level_bid_found hb hfl
      by_cases h0 : total_vol = 0
      · simp only [h0, if_true]
        have hp := update_book_apply_proj book Side.bid price (-lvl.volume)
          ((side_list book Side.bid).eraseIdx i) i
        simp only at hp
        rw [hp.1, hp.2]
        refine ⟨ha, ?_⟩
        unfold bidsSorted at hb ⊢
        simp only [side_list]
        exact pairwise_eraseIdx hb
      · simp only [h0, if_false]
        by_cases hv : total_vol - lvl.volume = 0
        · simp only [hv, if_true]
          exact ⟨ha, hb⟩
        · simp only [hv, if_false]
          have hp := update_book_apply_proj book Side.bid price (total_vol - lvl.volume)
            ((side_list book Side.bid).set i { lvl with volume := total_vol }) i
          simp only at hp
          rw [hp.1, hp.2]
          refine ⟨ha, ?_⟩
          unfold bidsSorted at hb ⊢
          simp only [side_list]
          exact pairwise_set_price (P := fun x y => y < x) book.bids i _ hi hb (by simp [heq])

/-- `slot_depth` keeps both sides strictly sorted. -/
theorem slot_depth_sorted (book : OrderBook) (typ : Side) (price total_vol : Int)
    (ha : asksSorted book.asks) (hb : bidsSorted book.bids) :
    asksSorted (slot_depth book typ price total_vol).1.asks ∧
    bidsSorted (slot_depth book typ price total_vol).1.bids := by
  have h := update_book_sorted book typ price total_vol ha hb
  unfold slot_depth
  by_cases hr : (update_book book typ price total_vol).2 <;> simp only [hr, if_true, if_false] <;> exact h

/-- The crossed-asks repair loop keeps any pairwise relation on the list. -/
theorem repair_asks_loop_pairwise {R : Level → Level → Prop} (ask : Int) :
    ∀ (l : List Level) (t c : Int), l.Pairwise R → (repair_asks_loop ask l t c).1.Pairwise R
  | [], t, c, h => by simp [repair_asks_loop]
  | lvl :: rest, t, c, h => by
    unfold repair_asks_loop
    by_cases hp : lvl.price < ask
    · simp only [hp, if_true]
      exact repair_asks_loop_pairwise ask rest _ _ (List.pairwise_cons.1 h).2
    · simp only [hp, if_false]
      exact h

/-- The crossed-bids repair loop keeps any pairwise relation on the list. -/
theorem repair_bids_loop_pairwise {R : Level → Level → Prop} (bid : Int) :
    ∀ (l : List Level) (t c : Int), l.Pairwise R → (repair_bids_loop bid l t c).1.Pairwise R
  | [], t, c, h => by simp [repair_bids_loop]
  | lvl :: rest, t, c, h => by
    unfold repair_bids_loop
    by_cases hp : lvl.price > bid
    · simp only [hp, if_true]
      exact repair_bids_loop_pairwise bid rest _ _ (List.pairwise_cons.1 h).2
    · simp only [hp, if_false]
      exact h

/-- Changing only the head's volume keeps a pairwise price relation. -/
theorem cons_head_volume_pairwise {P : Int → Int → Prop} {lvl : Level} {rest : List Level} (v : Int)
    (h : (lvl :: rest).Pairwise (fun a b => P a.price b.price)) :
    ({ lvl with volume := v } :: rest).Pairwise (fun a b => P a.price b.price) := by
  rw [List.pairwise_cons] at h ⊢
  exact ⟨fun b hb => h.1 b hb, h.2⟩

/-- `slot_trade` keeps both sides strictly sorted. -/
theorem slot_trade_sorted (book : OrderBook) (price volume : Int) (typ : Side) (own : Bool)
    (ha : asksSorted book.asks) (hb : bidsSorted book.bids) :
    asksSorted (slot_trade book price volume typ own).1.asks ∧
    bidsSorted (slot_trade book price volume typ own).1.bids := by
  cases own with
  | true =>
    have h : (slot_trade book price volume typ true).1 = book := rfl
    rw [h]
    exact ⟨ha, hb⟩
  | false =>
    cases typ with
    | bid =>
      have hra : asksSorted (repair_crossed_asks book price).asks :=
        repair_asks_loop_pairwise price book.asks book.total_ask book.valid_ask_cache ha
      have hrb : (repair_crossed_asks book price).bids = book.bids := rfl
      unfold slot_trade
      simp only [Bool.false_eq_true, if_false]
      cases hba : (repair_crossed_asks book price).asks with
      | nil =>
        rw [hba] at hra
        simp only [hba]
        exact ⟨hra, hrb ▸ hb⟩
      | cons lvl rest =>
        rw [hba] at hra
        simp only [hba]
        by_cases hpe : lvl.price = price
        · rw [if_pos hpe]
          by_cases hnv : lvl.volume - volume ≤ 0
          · rw [if_pos hnv, if_pos hnv]
            cases rest with
            | nil => exact ⟨List.Pairwise.nil, hrb ▸ hb⟩
            | cons l2 r2 =>
              exact ⟨(List.pairwise_cons.1 hra).2, hrb ▸ hb⟩
          · rw [if_neg hnv, if_neg hnv]
            exact ⟨cons_head_volume_pairwise (P := fun x y => x < y) _ hra, hrb ▸ hb⟩
        · rw [if_neg hpe]
          simp only [hba]
          exact ⟨hra, hrb ▸ hb⟩
    | ask =>
      have hrb : bidsSorted (repair_crossed_bids book price).bids :=
        repair_bids_loop_pairwise price book.bids book.total_bid book.valid_bid_cache hb
      have hra : (repair_crossed_bids book price).asks = book.asks := rfl
      unfold slot_trade
      simp only [Bool.false_eq_true, if_false]
      cases hbb : (repair_crossed_bids book price).bids with
      | nil =>
        rw [hbb] at hrb
        simp only [hbb]
        exact ⟨hra ▸ ha, hrb⟩
      | cons lvl rest =>
        rw [hbb] at hrb
        simp only [hbb]
        by_cases hpe : lvl.price = price
        · rw [if_pos hpe]
          by_cases hnv : lvl.volume - volume ≤ 0
          · rw [if_pos hnv, if_pos hnv]
            cases rest with
            | nil => exact ⟨hra ▸ ha, List.Pairwise.nil⟩
            | cons l2 r2 =>
              exact ⟨hra ▸ ha, (List.pairwise_cons.1 hrb).2⟩
          · rw [if_neg hnv, if_neg hnv]
            exact ⟨hra ▸ ha, cons_head_volume_pairwise (P := fun x y => y < x) _ hrb⟩
        · rw [if_neg hpe]
          simp only [hbb]
          exact ⟨hra ▸ ha, hrb⟩

/-- Sortedness of both sides is an inductive invariant of depth and trade
event processing. -/
theorem apply_events_sorted (evs : List BookEvent) :
    ∀ book, asksSorted book.asks → bidsSorted book.bids →
      asksSorted (apply_events book evs).asks ∧ bidsSorted (apply_events book evs).bids := by
  induction evs with
  | nil => exact fun book ha hb => ⟨ha, hb⟩
  | cons e rest ih =>
    intro book ha hb
    unfold apply_events
    simp only [List.foldl_cons]
    cases e with
    | depth typ price total_vol =>
      have h := slot_depth_sorted book typ price total_vol ha hb
      exact ih _ h.1 h.2
    | trade price volume typ own =>
      have h := slot_trade_sorted book price volume typ own ha hb
      exact ih _ h.1 h.2

/-- C3: Starting from an empty OrderBook, after any finite sequence of
depth and trade events the bids list is strictly descending in price, the
asks list is strictly ascending in price, and no side contains two levels
with the same price. -/
theorem book_sides_strictly_sorted (evs : List BookEvent) :
    asksSorted (apply_events empty_book evs).asks ∧
    bidsSorted (apply_events empty_book evs).bids ∧
    (apply_events empty_book evs).asks.Pairwise (fun a b => a.price ≠ b.price) ∧
    (apply_events empty_book evs).bids.Pairwise (fun a b => a.price ≠ b.price) := by
  obtain ⟨ha, hb⟩ := apply_events_sorted evs empty_book List.Pairwise.nil List.Pairwise.nil
  exact ⟨ha, hb, ha.imp (fun h => ne_of_lt h), hb.imp (fun h => ne_of_gt h)⟩

/-! ### Ticker repair (C6) -/

/-- On a strictly ascending ask list the crossed-asks repair loop removes
exactly the levels priced strictly below `ask`, subtracts their volumes
from the running total, and resets the cache to -1 when anything was
removed. -/
theorem repair_asks_loop_spec (ask : Int) :
    ∀ (l : List Level) (t c : Int), asksSorted l →
      repair_asks_loop ask l t c =
        (l.filter (fun lvl => decide (ask ≤ lvl.price)),
         t - ((l.filter (fun lvl => decide (lvl.price < ask))).map Level.volume).sum,
         if l.filter (fun lvl => decide (lvl.price < ask)) = [] then c else -1)
  | [], t, c, _ => by simp [repair_asks_loop]
  | lvl :: rest, t, c, h => by
    unfold asksSorted at h
    rw [List.pairwise_cons] at h
    by_cases hp : lvl.price < ask
    · have hstep : repair_asks_loop ask (lvl :: rest) t c =
          repair_asks_loop ask rest (t + -lvl.volume) (-1) := by
        simp only [repair_asks_loop]
        rw [if_pos hp]
      rw [hstep, repair_asks_loop_spec ask rest (t + -lvl.volume) (-1) h.2]
      have hf1 : (lvl :: rest).filter (fun lvl => decide (ask ≤ lvl.price)) =
          rest.filter (fun lvl => decide (ask ≤ lvl.price)) := by
        rw [List.filter_cons]
        simp [not_le.2 hp]
      have hf2 : (lvl :: rest).filter (fun lvl => decide (lvl.price < ask)) =
          lvl :: rest.filter (fun lvl => decide (lvl.price < ask)) := by
        rw [List.filter_cons]
        simp [hp]
      rw [hf1, hf2]
      refine Prod.ext rfl (Prod.ext ?_ ?_)
      · simp only [List.map_cons, List.sum_cons]
        ring
      · simp only [List.cons_ne_self]
        by_cases hr : rest.filter (fun lvl => decide (lvl.price < ask)) = [] <;> simp [hr]
    · have hstep : repair_asks_loop ask (lvl :: rest) t c = (lvl :: rest, t, c) := by
        simp only [repair_asks_loop]
        rw [if_neg hp]
      have hall : ∀ x ∈ rest, ask ≤ x.price := by
        intro x hx
        have := h.1 x hx
        omega
      have hf1 : (lvl :: rest).filter (fun lvl => decide (ask ≤ lvl.price)) = lvl :: rest := by
        rw [List.filter_eq_self]
        intro a hamem
        rcases List.mem_cons.1 hamem with rfl | hmem
        · simpa using not_lt.1 hp
        · simpa using hall a hmem
      have hf2 : (lvl :: rest).filter (fun lvl => decide (lvl.price < ask)) = [] := by
        rw [List.filter_eq_nil_iff]
        intro a hamem
        rcases List.mem_cons.1 hamem with rfl | hmem
        · simpa using not_lt.1 hp
        · simpa using not_lt.2 (hall a hmem)
      rw [hstep, hf1, hf2]
      simp

/-- On a strictly descending bid list the crossed-bids repair loop removes
exactly the levels priced strictly above `bid`, subtracts their quote
volumes from the running total, and resets the cache to -1 when anything
was removed. -/
theorem repair_bids_loop_spec (bid : Int) :
    ∀ (l : List Level) (t c : Int), bidsSorted l →
      repair_bids_loop bid l t c =
        (l.filter (fun lvl => decide (lvl.price ≤ bid)),
         t - ((l.filter (fun lvl => decide (bid < lvl.price))).map
            (fun lvl => lvl.volume * lvl.price)).sum,
         if l.filter (fun lvl => decide (bid < lvl.price)) = [] then c else -1)
  | [], t, c, _ => by simp [repair_bids_loop]
  | lvl :: rest, t, c, h => by
    unfold bidsSorted at h
    rw [List.pairwise_cons] at h
    by_cases hp : lvl.price > bid
    · have hstep : repair_bids_loop bid (lvl :: rest) t c =
          repair_bids_loop bid rest (t + -lvl.volume * lvl.price) (-1) := by
        simp only [repair_bids_loop]
        rw [if_pos hp]
      rw [hstep, repair_bids_loop_spec bid rest (t + -lvl.volume * lvl.price) (-1) h.2]
      have hf1 : (lvl :: rest).filter (fun lvl => decide (lvl.price ≤ bid)) =
          rest.filter (fun lvl => decide (lvl.price ≤ bid)) := by
        rw [List.filter_cons]
        simp [not_le.2 hp]
      have hf2 : (lvl :: rest).filter (fun lvl => decide (bid < lvl.price)) =
          lvl :: rest.filter (fun lvl => decide (bid < lvl.price)) := by
        rw [List.filter_cons]
        simp [hp]
      rw [hf1, hf2]
      refine Prod.ext rfl (Prod.ext ?_ ?_)
      · simp only [List.map_cons, List.sum_cons]
        ring
      · simp only [List.cons_ne_self]
        by_cases hr : rest.filter (fun lvl => decide (bid < lvl.price)) = [] <;> simp [hr]
    · have hstep : repair_bids_loop bid (lvl :: rest) t c = (lvl :: rest, t, c) := by
        simp only [repair_bids_loop]
        rw [if_neg hp]
      have hall : ∀ x ∈ rest, x.price ≤ bid := by
        intro x hx
        have := h.1 x hx
        omega
      have hf1 : (lvl :: rest).filter (fun lvl => decide (lvl.price ≤ bid)) = lvl :: rest := by
        rw [List.filter_eq_self]
        intro a hamem
        rcases List.mem_cons.1 hamem with rfl | hmem
        · simpa using not_lt.1 hp
        · simpa using hall a hmem
      have hf2 : (lvl :: rest).filter (fun lvl => decide (bid < lvl.price)) = [] := by
        rw [List.filter_eq_nil_iff]
        intro a hamem
        rcases List.mem_cons.1 hamem with rfl | hmem
        · simpa using not_lt.1 hp
        · simpa using not_lt.2 (hall a hmem)
      rw [hstep, hf1, hf2]
      simp

/-- C6: after a ticker event every ask level priced strictly below `ask`
is removed with `total_ask` reduced by each removed level's volume, every
bid level priced strictly above `bid` is removed with `total_bid` reduced
by each removed level's volume times its price, the side's cache watermark
is invalidated to -1 exactly when a level was removed from it, and
`signal_changed` is emitted. -/
theorem ticker_repairs_crossed_levels (book : OrderBook) (bid ask : Int)
    (ha : asksSorted book.asks) (hb : bidsSorted book.bids) :
    (slot_ticker book bid ask).1.asks = book.asks.filter (fun l => decide (ask ≤ l.price)) ∧
    (slot_ticker book bid ask).1.total_ask = book.total_ask -
      ((book.asks.filter (fun l => decide (l.price < ask))).map Level.volume).sum ∧
    (slot_ticker book bid ask).1.valid_ask_cache =
      (if book.asks.filter (fun l => decide (l.price < ask)) = [] then book.valid_ask_cache else -1) ∧
    (slot_ticker book bid ask).1.bids = book.bids.filter (fun l => decide (l.price ≤ bid)) ∧
    (slot_ticker book bid ask).1.total_bid = book.total_bid -
      ((book.bids.filter (fun l => decide (bid < l.price))).map (fun l => l.volume * l.price)).sum ∧
    (slot_ticker book bid ask).1.valid_bid_cache =
      (if book.bids.filter (fun l => decide (bid < l.price)) = [] then book.valid_bid_cache else -1) ∧
    (slot_ticker book bid ask).2 = [Sig.changed] := by
  simp only [slot_ticker, repair_crossed_asks, repair_crossed_bids]
  rw [repair_asks_loop_spec ask book.asks book.total_ask book.valid_ask_cache ha]
  rw [repair_bids_loop_spec bid book.bids book.total_bid book.valid_bid_cache hb]
  simp

/-- Witness for C6 at the spec's scenario S3: book with asks
`[(99, 1), (100, 2)]`, ticker `(98, 100)` removes the crossed level 99. -/
theorem ticker_repairs_crossed_levels_witness :
    (slot_ticker (apply_events empty_book
        [BookEvent.depth Side.ask 99 1, BookEvent.depth Side.ask 100 2]) 98 100).1.asks =
      [⟨100, 2, 0, 0, 0⟩] ∧
    (slot_ticker (apply_events empty_book
        [BookEvent.depth Side.ask 99 1, BookEvent.depth Side.ask 100 2]) 98 100).1.total_ask = 2 := by
  have h := ticker_repairs_crossed_levels (apply_events empty_book
    [BookEvent.depth Side.ask 99 1, BookEvent.depth Side.ask 100 2]) 98 100
    (by decide) (by decide)
  refine ⟨h.1.trans (by decide), h.2.1.trans (by decide)⟩

/-! ### Trade against the top of the book (C5) -/

/-- C5: for a non-own trade with side bid whose price equals the
post-repair best ask, the top ask level's volume is decremented by the
trade volume; if the result is non-positive the level is popped and
`total_ask` drops by exactly the level's pre-trade volume, after which the
best ask is the new head's price; symmetrically for side ask against the
bids with `total_bid` adjusted by `voldiff * price`. -/
theorem trade_decrements_top_level :
    (∀ (book : OrderBook) (price volume : Int) (lvl : Level) (rest : List Level),
      (repair_crossed_asks book price).asks = lvl :: rest →
      lvl.price = price →
      ((0 < lvl.volume - volume →
          (slot_trade book price volume Side.bid false).1.asks =
            { lvl with volume := lvl.volume - volume } :: rest ∧
          (slot_trade book price volume Side.bid false).1.total_ask =
            (repair_crossed_asks book price).total_ask - volume ∧
          (slot_trade book price volume Side.bid false).1.ask = price) ∧
       (lvl.volume - volume ≤ 0 →
          (slot_trade book price volume Side.bid false).1.asks = rest ∧
          (slot_trade book price volume Side.bid false).1.total_ask =
            (repair_crossed_asks book price).total_ask - lvl.volume ∧
          ∀ l2 rest2, rest = l2 :: rest2 →
            (slot_trade book price volume Side.bid false).1.ask = l2.price))) ∧
    (∀ (book : OrderBook) (price volume : Int) (lvl : Level) (rest : List Level),
      (repair_crossed_bids book price).bids = lvl :: rest →
      lvl.price = price →
      ((0 < lvl.volume - volume →
          (slot_trade book price volume Side.ask false).1.bids =
            { lvl with volume := lvl.volume - volume } :: rest ∧
          (slot_trade book price volume Side.ask false).1.total_bid =
            (repair_crossed_bids book price).total_bid - volume * price ∧
          (slot_trade book price volume Side.ask false).1.bid = price) ∧
       (lvl.volume - volume ≤ 0 →
          (slot_trade book price volume Side.ask false).1.bids = rest ∧
          (slot_trade book price volume Side.ask false).1.total_bid =
            (repair_crossed_bids book price).total_bid - lvl.volume * price ∧
          ∀ l2 rest2, rest = l2 :: rest2 →
            (slot_trade book price volume Side.ask false).1.bid = l2.price))) := by
  constructor
  · intro book price volume lvl rest h hpe
    unfold slot_trade
    simp only [Bool.false_eq_true, if_false, h]
    rw [if_pos hpe]
    constructor
    · intro hpos
      rw [if_neg (not_le.2 hpos), if_neg (not_le.2 hpos)]
      refine ⟨rfl, by simp; ring, by simpa using hpe⟩
    · intro hneg
      rw [if_pos hneg, if_pos hneg]
      cases rest with
      | nil =>
        refine ⟨rfl, by simp; ring, ?_⟩
        intro l2 rest2 hc
        cases hc
      | cons l2 rest2 =>
        refine ⟨rfl, by simp; ring, ?_⟩
        intro l3 rest3 hc
        cases hc
        rfl
  · intro book price volume lvl rest h hpe
    unfold slot_trade
    simp only [Bool.false_eq_true, if_false, h]
    rw [if_pos hpe]
    constructor
    · intro hpos
      rw [if_neg (not_le.2 hpos), if_neg (not_le.2 hpos)]
      refine ⟨rfl, by simp; ring, by simpa using hpe⟩
    · intro hneg
      rw [if_pos hneg, if_pos hneg]
      cases rest with
      | nil =>
        refine ⟨rfl, by simp; ring, ?_⟩
        intro l2 rest2 hc
        cases hc
      | cons l2 rest2 =>
        refine ⟨rfl, by simp; ring, ?_⟩
        intro l3 rest3 hc
        cases hc
        rfl

/-- Witness for C5 at the spec's scenario S2: asks `[(100, 5), (101, 3)]`,
trade `(100, 5, bid)` consumes the top level entirely. -/
theorem trade_decrements_top_level_witness :
    (slot_trade (apply_events empty_book
        [BookEvent.depth Side.ask 100 5, BookEvent.depth Side.ask 101 3])
        100 5 Side.bid false).1.asks = [⟨101, 3, 0, 0, 0⟩] ∧
    (slot_trade (apply_events empty_book
        [BookEvent.depth Side.ask 100 5, BookEvent.depth Side.ask 101 3])
        100 5 Side.bid false).1.total_ask = 3 ∧
    (slot_trade (apply_events empty_book
        [BookEvent.depth Side.ask 100 5, BookEvent.depth Side.ask 101 3])
        100 5 Side.bid false).1.ask = 101 := by
  have h := (trade_decrements_top_level.1 (apply_events empty_book
      [BookEvent.depth Side.ask 100 5, BookEvent.depth Side.ask 101 3])
      100 5 ⟨100, 5, 0, 0, 0⟩ [⟨101, 3, 0, 0, 0⟩] (by decide) (by decide)).2 (by decide)
  exact ⟨h.1, h.2.1.trans (by decide), h.2.2 ⟨101, 3, 0, 0, 0⟩ [] rfl⟩

/-! ### Depth event no-op and signal discipline (C4) -/

/-- The common tail of `_update_book` stores the given list on the worked
side. -/
theorem update_book_apply_side (book : OrderBook) (typ : Side) (price voldiff : Int)
    (lst' : List Level) (index : Nat) :
    side_list (update_book_apply book typ price voldiff lst' index).1 typ = lst' ∧
    (update_book_apply book typ price voldiff lst' index).2 = true := by
  cases typ <;>
    · unfold update_book_apply side_list
      cases hh : lst'.head? <;> simp

/-- C4 (amended): a depth event is a no-op without a signal when
`total_vol = 0` hits no level, or when `total_vol ≠ 0` matches a level
already carrying that volume; otherwise the level is removed
(`total_vol = 0`, even when the found level's volume is already 0),
updated, or inserted, and `signal_changed` is emitted exactly once. -/
theorem depth_event_noop_and_signal (book : OrderBook) (typ : Side) (price total_vol : Int) :
    (total_vol = 0 → (find_level book typ price).2 = none →
        slot_depth book typ price total_vol = (book, [])) ∧
    (∀ lvl, total_vol ≠ 0 → (find_level book typ price).2 = some lvl →
        lvl.volume = total_vol → slot_depth book typ price total_vol = (book, [])) ∧
    (∀ lvl, total_vol = 0 → (find_level book typ price).2 = some lvl →
        side_list (slot_depth book typ price total_vol).1 typ =
          (side_list book typ).eraseIdx (find_level book typ price).1 ∧
        (slot_depth book typ price total_vol).2 = [Sig.changed]) ∧
    (∀ lvl, total_vol ≠ 0 → (find_level book typ price).2 = some lvl →
        lvl.volume ≠ total_vol →
        side_list (slot_depth book typ price total_vol).1 typ =
          (side_list book typ).set (find_level book typ price).1
            { lvl with volume := total_vol } ∧
        (slot_depth book typ price total_vol).2 = [Sig.changed]) ∧
    (total_vol ≠ 0 → (find_level book typ price).2 = none →
        side_list (slot_depth book typ price total_vol).1 typ =
          insertAt (find_level book typ price).1 ⟨price, total_vol, 0, 0, 0⟩
            (side_list book typ) ∧
        (slot_depth book typ price total_vol).2 = [Sig.changed]) := by
  rcases hfl : find_level book typ price with ⟨i, o⟩
  refine ⟨?_, ?_, ?_, ?_, ?_⟩
  · intro h0 hnone
    simp only at hnone
    subst hnone
    unfold slot_depth update_book
    rw [hfl]
    simp [h0]
  · intro lvl hnz hsome heq
    simp only at hsome
    subst hsome
    unfold slot_depth update_book
    rw [hfl]
    simp only [if_neg hnz]
    rw [if_pos (by omega : total_vol - lvl.volume = 0)]
    simp
  · intro lvl h0 hsome
    simp only at hsome
    subst hsome
    have hap := update_book_apply_side book typ price (-lvl.volume)
      ((side_list book typ).eraseIdx i) i
    unfold slot_depth update_book
    rw [hfl]
    simp only [if_pos h0]
    rw [if_pos hap.2]
    exact ⟨hap.1, rfl⟩
  · intro lvl hnz hsome hne
    simp only at hsome
    subst hsome
    have hap := update_book_apply_side book typ price (total_vol - lvl.volume)
      ((side_list book typ).set i { lvl with volume := total_vol }) i
    unfold slot_depth update_book
    rw [hfl]
    simp only [if_neg hnz]
    rw [if_neg (by omega : ¬ total_vol - lvl.volume = 0)]
    rw [if_pos hap.2]
    exact ⟨hap.1, rfl⟩
  · intro hnz hnone
    simp only at hnone
    subst hnone
    have hap := update_book_apply_side book typ price total_vol
      (insertAt i ⟨price, total_vol, 0, 0, 0⟩ (side_list book typ)) i
    unfold slot_depth update_book
    rw [hfl]
    simp only [if_neg hnz]
    rw [if_pos hap.2]
    exact ⟨hap.1, rfl⟩

/-- C4 counterexample: the own-order overlay creates a level with aggregate
volume 0; a depth event with `total_vol = 0` at that price then finds a
level whose volume equals `total_vol`, yet the book changes (the level is
removed) and `signal_changed` is emitted. -/
theorem depth_zero_vol_level_cex :
    (find_level (slot_user_order empty_book 100 5 Side.ask "X" "open" "").1
        Side.ask 100).2 = some ⟨100, 0, 5, 0, 0⟩ ∧
    (slot_depth (slot_user_order empty_book 100 5 Side.ask "X" "open" "").1
        Side.ask 100 0).2 = [Sig.changed] ∧
    (slot_depth (slot_user_order empty_book 100 5 Side.ask "X" "open" "").1
        Side.ask 100 0).1 ≠
      (slot_user_order empty_book 100 5 Side.ask "X" "open" "").1 := by
  decide

/-- Witness for C4: a repeated delta with the same non-zero volume is a
silent no-op, and a delta at a fresh price inserts and signals once. -/
theorem depth_event_noop_and_signal_witness :
    slot_depth (apply_events empty_book [BookEvent.depth Side.ask 100 5]) Side.ask 100 5 =
      (apply_events empty_book [BookEvent.depth Side.ask 100 5], []) ∧
    (slot_depth (apply_events empty_book [BookEvent.depth Side.ask 100 5]) Side.ask 101 3).2 =
      [Sig.changed] := by
  refine ⟨(depth_event_noop_and_signal (apply_events empty_book
      [BookEvent.depth Side.ask 100 5]) Side.ask 100 5).2.1
      ⟨100, 5, 0, 0, 0⟩ (by decide) (by decide) (by decide), ?_⟩
  exact ((depth_event_noop_and_signal (apply_events empty_book
      [BookEvent.depth Side.ask 100 5]) Side.ask 101 3).2.2.2.2
      (by decide) (by decide)).2

/-! ### User-order handling (C7, C8, C9) and error paths (C1, C2) -/

/-- C7: a user_order event whose status contains "executing" or
"post-pending" is dropped before any mutation: the book is returned
unchanged and no signal at all is emitted. -/
theorem user_order_executing_ignored (book : OrderBook) (price volume : Int) (typ : Side)
    (oid status reason : String)
    (h : str_in "executing" status = true ∨ str_in "post-pending" status = true) :
    slot_user_order book price volume typ oid status reason = (book, []) := by
  unfold slot_user_order
  by_cases h1 : str_in "executing" status = true
  · rw [if_pos h1]
  · rw [if_neg h1]
    rcases h with h | h
    · exact absurd h h1
    · rw [if_pos h]

/-- Witness for C7: a "post-pending" event leaves an empty book untouched
and silent. -/
theorem user_order_executing_ignored_witness :
    slot_user_order empty_book 7 3 Side.ask "Y" "post-pending" "" = (empty_book, []) :=
  user_order_executing_ignored empty_book 7 3 Side.ask "Y" "post-pending" ""
    (Or.inr (by decide))

/-- C8: a removal whose first matching own order is a market order
(price 0) is ignored entirely when the status contains "passive"; the
matching "active" removal then removes the order (levels and totals are
untouched because market orders never sit on a level). -/
theorem market_order_passive_removal_ignored (book : OrderBook) (price volume : Int)
    (typ : Side) (oid status reason : String) (i : Nat) (ord : Order)
    (hex : str_in "executing" status = false)
    (hpp : str_in "post-pending" status = false)
    (hrm : str_in "removed" status = true)
    (hfind : find_own book.owns oid = some (i, ord))
    (hprice : ord.price = 0) :
    (str_in "passive" status = true →
        slot_user_order book price volume typ oid status reason = (book, [])) ∧
    (str_in "passive" status = false →
        slot_user_order book price volume typ oid status reason =
          ({ book with owns := book.owns.eraseIdx i },
           [Sig.own_removed ord reason, Sig.changed, Sig.owns_changed])) := by
  unfold slot_user_order
  rw [if_neg (by simp [hex]), if_neg (by simp [hpp]), if_pos hrm, hfind]
  dsimp only
  constructor
  · intro hpass
    rw [if_pos ⟨hprice, hpass⟩]
  · intro hpass
    rw [if_neg (by simp [hpass])]
    rw [hprice]
    simp [update_level_own_volume]

/-- Witness for C8: a pending market order, a passive removal (no-op) and
an active removal (order removed, remove/changed/owns signals). -/
theorem market_order_passive_removal_ignored_witness :
    slot_user_order (slot_user_order empty_book 0 5 Side.bid "X" "pending" "").1
        0 0 Side.bid "X" "removed:completed_passive" "completed_passive" =
      ((slot_user_order empty_book 0 5 Side.bid "X" "pending" "").1, []) ∧
    slot_user_order (slot_user_order empty_book 0 5 Side.bid "X" "pending" "").1
        0 0 Side.bid "X" "removed:completed_active" "completed_active" =
      ({ (slot_user_order empty_book 0 5 Side.bid "X" "pending" "").1 with owns := [] },
       [Sig.own_removed ⟨0, 5, Side.bid, "X", "pending"⟩ "completed_active",
        Sig.changed, Sig.owns_changed]) := by
  constructor
  · exact (market_order_passive_removal_ignored
      (slot_user_order empty_book 0 5 Side.bid "X" "pending" "").1
      0 0 Side.bid "X" "removed:completed_passive" "completed_passive"
      0 ⟨0, 5, Side.bid, "X", "pending"⟩
      (by decide) (by decide) (by decide) (by decide) (by decide)).1 (by decide)
  · exact ((market_order_passive_removal_ignored
      (slot_user_order empty_book 0 5 Side.bid "X" "pending" "").1
      0 0 Side.bid "X" "removed:completed_active" "completed_active"
      0 ⟨0, 5, Side.bid, "X", "pending"⟩
      (by decide) (by decide) (by decide) (by decide) (by decide)).2 (by decide)).trans
      (by decide)

/-- An oid absent from the owns list is not found by the linear scan. -/
theorem find_own_none_of_no_oid : ∀ (owns : List Order) (oid : String),
    owns.any (fun o => o.oid == oid) = false → find_own owns oid = none
  | [], _, _ => rfl
  | o :: rest, oid, h => by
    simp only [List.any_cons, Bool.or_eq_false_iff] at h
    unfold find_own
    rw [if_neg (by simpa using h.1)]
    rw [find_own_none_of_no_oid rest oid h.2]

/-- C9 (amended): a status-bearing user_order event whose status survives
the drop filters (no "executing"/"post-pending", not a removal) and whose
oid is unknown is handled exactly by `add_own`, emitting one
`signal_own_added` (plus `signal_changed`, `signal_owns_changed`); and any
later add attempt for an oid already present is suppressed by the
`have_own_oid` check: no state change, no signal. -/
theorem user_order_unknown_oid_add_own (book : OrderBook) (price volume : Int)
    (typ : Side) (oid status reason : String)
    (hex : str_in "executing" status = false)
    (hpp : str_in "post-pending" status = false)
    (hrm : str_in "removed" status = false)
    (hunk : have_own_oid book oid = false) :
    slot_user_order book price volume typ oid status reason =
      add_own book ⟨price, volume, typ, oid, status⟩ ∧
    (slot_user_order book price volume typ oid status reason).2 =
      [Sig.own_added ⟨price, volume, typ, oid, status⟩, Sig.changed, Sig.owns_changed] ∧
    (∀ (b2 : OrderBook) (ord : Order), ord.oid ≠ "" → have_own_oid b2 ord.oid = true →
        add_own b2 ord = (b2, [])) := by
  have hnone : find_own book.owns oid = none :=
    find_own_none_of_no_oid book.owns oid hunk
  have hmain : slot_user_order book price volume typ oid status reason =
      add_own book ⟨price, volume, typ, oid, status⟩ := by
    unfold slot_user_order
    rw [if_neg (by simp [hex]), if_neg (by simp [hpp]), if_neg (by simp [hrm]), hnone]
  refine ⟨hmain, ?_, ?_⟩
  · rw [hmain]
    unfold add_own
    rw [if_neg (by simp [hunk])]
  · intro b2 ord hne hhave
    unfold add_own
    rw [if_pos hhave]

/-- C9 counterexample: an "executing" status-bearing event with an unknown
oid is dropped outright — nothing is added to owns and no
`signal_own_added` (indeed no signal at all) fires, contrary to the claim
that every status-bearing event with an unknown oid is added. -/
theorem user_order_unknown_oid_executing_cex :
    slot_user_order empty_book 100 5 Side.bid "X" "executing" "" = (empty_book, []) ∧
    (slot_user_order empty_book 100 5 Side.bid "X" "executing" "").1.owns = [] := by
  decide

/-- Witness for C9: an "open" event with unknown oid emits exactly one
`signal_own_added`, and a duplicate add attempt for the same oid is a
silent no-op. -/
theorem user_order_unknown_oid_add_own_witness :
    (slot_user_order empty_book 100 5 Side.bid "X" "open" "").2 =
      [Sig.own_added ⟨100, 5, Side.bid, "X", "open"⟩, Sig.changed, Sig.owns_changed] ∧
    add_own (slot_user_order empty_book 100 5 Side.bid "X" "open" "").1
        ⟨100, 7, Side.bid, "X", "pending"⟩ =
      ((slot_user_order empty_book 100 5 Side.bid "X" "open" "").1, []) := by
  have h := user_order_unknown_oid_add_own empty_book 100 5 Side.bid "X" "open" ""
    (by decide) (by decide) (by decide) (by decide)
  exact ⟨h.2.1, h.2.2 _ ⟨100, 7, Side.bid, "X", "pending"⟩ (by decide) (by decide)⟩

/-- C1 (amended): on an error-flagged fulldepth payload the handler has
already cleared the book, so bids and asks end empty and both totals 0;
every other field (in particular `ready_depth`) keeps its prior value and
neither `signal_fulldepth_processed` nor `signal_changed` is emitted. -/
theorem fulldepth_error_aborts_after_clear (book : OrderBook) (depth : FullDepth)
    (h : fulldepth_has_error depth = true) :
    slot_fulldepth book depth =
      ({ book with bids := [], asks := [], total_ask := 0, total_bid := 0 }, []) := by
  unfold slot_fulldepth
  rw [if_pos h]

/-- C1 counterexample: with a non-empty book an error-flagged fulldepth
payload does mutate the book — the bids list is cleared. -/
theorem fulldepth_error_clears_book_cex :
    (slot_depth empty_book Side.bid 100 5).1.bids = [⟨100, 5, 0, 0, 0⟩] ∧
    (slot_fulldepth (slot_depth empty_book Side.bid 100 5).1
        { error := some "err" }).1.bids = [] ∧
    (slot_fulldepth (slot_depth empty_book Side.bid 100 5).1
        { error := some "err" }).1.bids ≠ (slot_depth empty_book Side.bid 100 5).1.bids := by
  decide

/-- Witness for C1: on an already-empty book the clear is invisible, the
event leaves the book equal to its prior state and emits nothing. -/
theorem fulldepth_error_aborts_after_clear_witness :
    slot_fulldepth empty_book { error := some "boom" } = (empty_book, []) :=
  (fulldepth_error_aborts_after_clear empty_book { error := some "boom" }
    (by decide)).trans (by decide)

/-- C2 (the code against the claim): `slot_fullhistory` seeds each new
bucket's candle with the first trade's volume and then calls
`OHLCV.update` with the same trade, so the bucket volume double-counts the
first trade: a single trade of amount 1 yields a candle volume of 2,
while the live-trade path `History.slot_trade` counts the same trade
once. -/
theorem fullhistory_volume_double_count :
    (slot_fullhistory { candles := [], timeframe := 60, ready_history := false }
        [⟨120, 10, 1⟩]).1.candles = [⟨120, 10, 10, 10, 10, 2⟩] ∧
    (history_slot_trade { candles := [], timeframe := 60, ready_history := false }
        120 10 1 false).1.candles = [⟨120, 10, 10, 10, 10, 1⟩] := by
  decide

/-! ### The cumulative-volume query on an empty side (C10) -/

/-- The `get_total_up_to` binary-search loop leaves `mid`/`midval`
assigned whenever the loop body runs at least once or they were already
assigned; with enough fuel this covers every reachable state. -/
theorem gtut_loop_assigned (comp : Int → Int → Bool) (lst : List Level) (price : Int) :
    ∀ (fuel low high : Nat) (mid : Option Nat) (midval : Option Int),
      high - low ≤ fuel →
      (low < high ∨ ((∃ m, mid = some m) ∧ (∃ v, midval = some v))) →
      ∃ a b, gtut_loop comp lst price fuel low high mid midval = (some a, some b) := by
  intro fuel
  induction fuel with
  | zero =>
    intro low high mid midval hf hcase
    rcases hcase with hlh | ⟨⟨m, rfl⟩, ⟨v, rfl⟩⟩
    · omega
    · exact ⟨m, v, rfl⟩
  | succ n ih =>
    intro low high mid midval hf hcase
    simp only [gtut_loop]
    by_cases hlh : low < high
    · rw [if_pos hlh]
      by_cases hc1 : comp (lst.getD ((low + high) / 2) default).price price = true
      · rw [if_pos hc1]
        exact ih _ _ _ _ (by omega) (Or.inr ⟨⟨_, rfl⟩, ⟨_, rfl⟩⟩)
      · rw [if_neg hc1]
        by_cases hc2 : comp price (lst.getD ((low + high) / 2) default).price = true
        · rw [if_pos hc2]
          exact ih _ _ _ _ (by omega) (Or.inr ⟨⟨_, rfl⟩, ⟨_, rfl⟩⟩)
        · rw [if_neg hc2]
          exact ⟨_, _, rfl⟩
    · rw [if_neg hlh]
      rcases hcase with h | ⟨⟨m, rfl⟩, ⟨v, rfl⟩⟩
      · exact absurd h hlh
      · exact ⟨m, v, rfl⟩

/-- C10: querying `get_total_up_to` on an empty side raises (the loop body
never runs, `midval` is read unassigned — modelled as `none`); on a
non-empty side the variable is always assigned and the call returns a
value. -/
theorem get_total_up_to_empty_side_raises :
    (∀ (book : OrderBook) (price : Int), book.asks = [] →
        get_total_up_to book price true = none) ∧
    (∀ (book : OrderBook) (price : Int), book.bids = [] →
        get_total_up_to book price false = none) ∧
    (∀ (book : OrderBook) (price : Int), book.asks ≠ [] →
        (get_total_up_to book price true).isSome = true) ∧
    (∀ (book : OrderBook) (price : Int), book.bids ≠ [] →
        (get_total_up_to book price false).isSome = true) := by
  refine ⟨?_, ?_, ?_, ?_⟩
  · intro book price h
    simp [get_total_up_to, h, gtut_loop]
  · intro book price h
    simp [get_total_up_to, h, gtut_loop]
  · intro book price h
    obtain ⟨a, b, heq⟩ := gtut_loop_assigned (side_comp Side.ask) book.asks price
      book.asks.length 0 book.asks.length none none (by omega)
      (Or.inl (by simpa using List.length_pos.2 h))
    unfold get_total_up_to
    simp only [if_true]
    rw [heq]
    dsimp only
    split <;> split <;> simp
  · intro book price h
    obtain ⟨a, b, heq⟩ := gtut_loop_assigned (side_comp Side.bid) book.bids price
      book.bids.length 0 book.bids.length none none (by omega)
      (Or.inl (by simpa using List.length_pos.2 h))
    unfold get_total_up_to
    simp only [Bool.false_eq_true, if_false]
    rw [heq]
    dsimp only
    split <;> split <;> simp

/-- Witness for C10: the empty book raises, a one-level book returns. -/
theorem get_total_up_to_empty_side_raises_witness :
    get_total_up_to empty_book 100 true = none ∧
    (get_total_up_to (slot_depth empty_book Side.ask 100 5).1 100 true).isSome = true :=
  ⟨get_total_up_to_empty_side_raises.1 empty_book 100 (by decide),
   get_total_up_to_empty_side_raises.2.2.1 _ 100 (by decide)⟩
